import Mathlib

/-!
Verification of the `cloudcomparer` scraper (`src/scrapper.py`).

The script fetches one HTML page, locates the table with id `comparison`,
reads platform names from the header row's image `alt` attributes, flattens
the data rows into `Solution` records and writes them as CSV.

The embedding below models Python strings as `List Char`, the relevant HTML
elements as structures, and run-time faults (`IndexError`, `KeyError`,
`AttributeError`) explicitly with `Except`.  The regular expression
`_platform_name_re = '(.*)(\s+(Icon|Log|Logo)$)'` is embedded with Python
`re.match` semantics: `.*` is greedy and does not cross a newline, `\s` is
the Unicode whitespace class, and `$` matches at the end of the string or
just before a single newline that ends it.
-/

/-- Text is modelled as a list of characters (a Python `str`). -/
abbrev Str := List Char

instance {ε α : Type} [DecidableEq ε] [DecidableEq α] :
    DecidableEq (Except ε α) := fun x y =>
  match x, y with
  | .ok a, .ok b =>
    if h : a = b then .isTrue (by rw [h]) else .isFalse (by simp [h])
  | .error a, .error b =>
    if h : a = b then .isTrue (by rw [h]) else .isFalse (by simp [h])
  | .ok _, .error _ => .isFalse (by simp)
  | .error _, .ok _ => .isFalse (by simp)

/-- A hyperlink element (`<a>` tag): its visible text and its `href`
attribute; subscripting a missing attribute raises `KeyError` in
BeautifulSoup, so `href` is optional here. -/
structure Link where
  text : Str
  href : Option Str
deriving DecidableEq, Repr

/-- An image element (`<img>` tag) with its optional `alt` attribute. -/
structure Img where
  alt : Option Str
deriving DecidableEq, Repr

/-- A table cell (`<td>` tag): its flattened visible text and the hyperlink
elements it contains, in document order. -/
structure Cell where
  text : Str
  links : List Link
deriving DecidableEq, Repr

/-- A table row (`<tr>` tag): the image elements and the `<td>` cells it
contains, each in document order. -/
structure Row where
  imgs : List Img
  tds : List Cell
deriving DecidableEq, Repr

/-- A fetched and parsed page: the table with id `comparison`, when present
(`bspage.find` returns `None` when it is absent). -/
structure Page where
  comparisonTable : Option (List Row)
deriving DecidableEq, Repr

/-- The run-time faults the script can raise.  `indexError`: subscripting a
list out of range; `keyError`: subscripting a tag by a missing attribute;
`attributeError`: calling a method on `None`.  `structureError` is the
classified error demanded by the specification; the source never raises it. -/
inductive PyError where
  | indexError
  | keyError
  | attributeError
  | structureError
deriving DecidableEq, Repr

/-- The `Solution` class: five text fields, never mutated. -/
structure Solution where
  category : Str
  service : Str
  platform : Str
  name : Str
  description : Str
deriving DecidableEq, Repr

/-- `Solution.__str__`: the five fields joined with commas. -/
def Solution.str (s : Solution) : Str :=
  s.category ++ ',' :: s.service ++ ',' :: s.platform ++ ',' :: s.name ++
    ',' :: s.description

/-- The character class `\s` of a Python regular expression over `str`
(Unicode whitespace). -/
def isPyWhitespace (c : Char) : Bool :=
  c = ' ' || c = '\t' || c = '\n' || c = '\r' || c = '\x0b' || c = '\x0c' ||
  c = '\x1c' || c = '\x1d' || c = '\x1e' || c = '\x1f' || c = '\x85' ||
  c = '\xa0' || c = '\u1680' || ('\u2000' ≤ c && c ≤ '\u200a') ||
  c = '\u2028' || c = '\u2029' || c = '\u202f' || c = '\u205f' || c = '\u3000'

/-- The alternatives `Icon|Log|Logo` of `_platform_name_re`, in order. -/
def kwAlternatives : List Str := ["Icon".toList, "Log".toList, "Logo".toList]

/-- Does `r` consist of `\s+` followed by one of `Icon|Log|Logo` ending
exactly at the end of `r`? -/
def tailMatchesCore (r : Str) : Bool :=
  kwAlternatives.any (fun k =>
    decide (k.length < r.length) &&
    decide (r.drop (r.length - k.length) = k) &&
    (r.take (r.length - k.length)).all isPyWhitespace)

/-- Does `r` match `\s+(Icon|Log|Logo)$`?  Python's `$` (without
`re.MULTILINE`) matches at the end of the string or just before a newline
that ends the string. -/
def tailMatches (r : Str) : Bool :=
  tailMatchesCore r ||
    (match r.getLast? with
     | some c => c = '\n' && tailMatchesCore r.dropLast
     | none => false)

/-- `validSplit s i`: splitting `s` at position `i` yields a match of
`_platform_name_re`: the prefix (group 1, matched by `.*`) contains no
newline and the suffix matches `\s+(Icon|Log|Logo)$`. -/
def validSplit (s : Str) (i : Nat) : Bool :=
  (s.take i).all (fun c => c != '\n') && tailMatches (s.drop i)

/-- Position of the greedy (longest) group-1 split, scanning from `n`
downwards, as the backtracking engine does for a greedy `.*`. -/
def findSplit (s : Str) : Nat → Option Nat
  | 0 => if validSplit s 0 then some 0 else none
  | n + 1 => if validSplit s (n + 1) then some (n + 1) else findSplit s n

/-- `get_platform_name(alt_desc)`: `re.match(_platform_name_re, alt_desc)`
yields group 1 of the greedy match when the pattern matches; otherwise the
input is returned unchanged. -/
def get_platform_name (alt_desc : Str) : Str :=
  match findSplit alt_desc alt_desc.length with
  | some i => alt_desc.take i
  | none => alt_desc

/-- The comprehension `[get_platform_name(img_tag['alt']) for img_tag in
img_tags]`; subscripting an image missing its `alt` attribute raises
`KeyError` at that element. -/
def altNames : List Img → Except PyError (List Str)
  | [] => .ok []
  | img :: rest =>
    match img.alt with
    | none => .error .keyError
    | some a => do
        let tail ← altNames rest
        .ok (get_platform_name a :: tail)

/-- `get_table_headers(rows)`: platform names parsed from the first row's
images; `rows[0]` raises `IndexError` on an empty list. -/
def get_table_headers : List Row → Except PyError (List Str)
  | [] => .error .indexError
  | first_row :: _ => altNames first_row.imgs

/-- The inner loop of `get_table_data` over one cell's hyperlinks: a link
with empty text is skipped; otherwise `ordered_platforms_names[i]` is read
(raising `IndexError` when `i` is out of range — evaluated first, in the
keyword-argument order of the `Solution(...)` call) and then
`unparsed_solution['href']` (raising `KeyError` when absent). -/
def extractLinks (platforms : List Str) (category service : Str) (i : Nat) :
    List Link → Except PyError (List Solution)
  | [] => .ok []
  | link :: rest =>
    if link.text.isEmpty then extractLinks platforms category service i rest
    else
      match platforms[i]? with
      | none => .error .indexError
      | some platform =>
        match link.href with
        | none => .error .keyError
        | some href => do
            let tail ← extractLinks platforms category service i rest
            .ok (⟨category, service, platform, link.text, href⟩ :: tail)

/-- The loop `for i, column in enumerate(columns)` of `get_table_data` over
the platform columns of one row (the cells after the first two). -/
def extractCells (platforms : List Str) (category service : Str) (i : Nat) :
    List Cell → Except PyError (List Solution)
  | [] => .ok []
  | column :: rest => do
      let here ← extractLinks platforms category service i column.links
      let there ← extractCells platforms category service (i + 1) rest
      .ok (here ++ there)

/-- One iteration of the row loop of `get_table_data`: `columns[0].text` and
`columns[1].text` raise `IndexError` when the row has fewer than two cells;
the remaining cells are the platform columns. -/
def extractRow (platforms : List Str) (row : Row) :
    Except PyError (List Solution) :=
  match row.tds with
  | c0 :: c1 :: rest => extractCells platforms c0.text c1.text 0 rest
  | _ => .error .indexError

/-- The row loop of `get_table_data` over the data rows (`rows[1:]`),
accumulating `all_solutions` in order. -/
def extractRows (platforms : List Str) :
    List Row → Except PyError (List Solution)
  | [] => .ok []
  | row :: rest => do
      let here ← extractRow platforms row
      let there ← extractRows platforms rest
      .ok (here ++ there)

/-- `get_table_data(rows)`: header platform names first, then the flattened
solutions of every data row. -/
def get_table_data (rows : List Row) : Except PyError (List Solution) := do
  let ordered_platforms_names ← get_table_headers rows
  extractRows ordered_platforms_names (rows.drop 1)

/-- `get_table_rows(webpage)` after the fetch: `bspage.find('table',
{'id':'comparison'})` returns `None` when the table is absent, and
`table.find_all('tr')` on `None` raises `AttributeError`. -/
def get_table_rows (page : Page) : Except PyError (List Row) :=
  match page.comparisonTable with
  | none => .error .attributeError
  | some rows => .ok rows

/-- `get_all_solutions(webpage)` given the fetched page. -/
def get_all_solutions (page : Page) : Except PyError (List Solution) := do
  let table_rows ← get_table_rows page
  get_table_data table_rows

/-- `csv_headers` of the `__main__` block. -/
def csv_headers : List Str :=
  ["Category".toList, "Service".toList, "Platform".toList,
   "Solution".toList, "Description".toList]

/-- The three `f.write` calls of the `__main__` block, in order: the
comma-joined headers, one newline, then the newline-joined records. -/
def mainFileWrites (solutions : List Solution) : List Str :=
  [List.intercalate [','] csv_headers, ['\n'],
   List.intercalate ['\n'] (solutions.map Solution.str)]

/-- The `__main__` block as a function of the fetch outcome: extraction runs
to completion first; only when it succeeds is the output file opened and
written.  An uncaught exception propagates before any write happens. -/
def scrapper_main (fetched : Except PyError Page) :
    Except PyError (List Str) :=
  match fetched with
  | .error e => .error e
  | .ok page =>
    match get_all_solutions page with
    | .error e => .error e
    | .ok solutions => .ok (mainFileWrites solutions)

/-- The text of the output file: the concatenation of the writes. -/
def fileContent (fetched : Except PyError Page) : Except PyError Str :=
  (scrapper_main fetched).map List.flatten

/-! ### Counting the emitted records -/

/-- Number of hyperlinks with non-empty visible text in a cell. -/
def cellLinkCount (c : Cell) : Nat :=
  (c.links.filter (fun l => !l.text.isEmpty)).length

/-- Number of hyperlinks with non-empty visible text in the platform-column
cells (the cells after the first two) of a row. -/
def rowLinkCount (r : Row) : Nat :=
  ((r.tds.drop 2).map cellLinkCount).sum

/-! ### The ordering specification

The definitions below follow the words of the specification (§4.4): records
are emitted row-major, then column-major (one platform column per cell after
the first two, mapped positionally), then in the document order of the
hyperlinks inside one cell, skipping hyperlinks with empty visible text. -/

/-- Modelled from the spec: the record a single hyperlink contributes, if
any — none when its visible text is empty (and none when its column has no
platform name or the link has no target, cases on which the source faults
instead of producing a record). -/
def specLink (platforms : List Str) (category service : Str) (i : Nat)
    (link : Link) : Option Solution :=
  if link.text.isEmpty then none
  else
    match platforms[i]?, link.href with
    | some platform, some href =>
      some ⟨category, service, platform, link.text, href⟩
    | _, _ => none

/-- Modelled from the spec: records of the platform columns of one row,
column-major then link-document order, the first column carrying index `i`. -/
def specCells (platforms : List Str) (category service : Str) :
    Nat → List Cell → List Solution
  | _, [] => []
  | i, column :: rest =>
    column.links.filterMap (specLink platforms category service i) ++
      specCells platforms category service (i + 1) rest

/-- Modelled from the spec: the records of one data row — category from the
first cell, service from the second, platform columns after that. -/
def specRow (platforms : List Str) (row : Row) : List Solution :=
  match row.tds with
  | c0 :: c1 :: rest => specCells platforms c0.text c1.text 0 rest
  | _ => []

/-- Modelled from the spec: all records of the table, row-major over the
data rows (every row after the header). -/
def specRecords (platforms : List Str) (rows : List Row) : List Solution :=
  ((rows.drop 1).map (specRow platforms)).flatten

/-! ### Concrete tables used by witnesses and counterexamples -/

/-- A header row carrying two platform images and no cells. -/
def wHeaderRow : Row :=
  ⟨[⟨some "AWS Icon".toList⟩, ⟨some "GCP Logo".toList⟩], []⟩

/-- A data row: category and service cells, then two platform cells; the
first platform cell holds one named link and one link with empty text. -/
def wDataRow : Row :=
  ⟨[], [⟨"Compute".toList, []⟩, ⟨"VM".toList, []⟩,
        ⟨[], [⟨"EC2".toList, some "u1".toList⟩, ⟨[], some "u2".toList⟩]⟩,
        ⟨[], [⟨"GCE".toList, some "u3".toList⟩]⟩]⟩

/-- A well-formed two-row witness table. -/
def wRows : List Row := [wHeaderRow, wDataRow]

/-- The platform names of `wHeaderRow` after name cleanup. -/
def wPlatforms : List Str := ["AWS".toList, "GCP".toList]

/-- The records extracted from `wRows`. -/
def wSols : List Solution :=
  [⟨"Compute".toList, "VM".toList, "AWS".toList, "EC2".toList, "u1".toList⟩,
   ⟨"Compute".toList, "VM".toList, "GCP".toList, "GCE".toList, "u3".toList⟩]

/-- The first record of `wSols`. -/
def wSol0 : Solution :=
  ⟨"Compute".toList, "VM".toList, "AWS".toList, "EC2".toList, "u1".toList⟩

/-- Everything the script runs before the output file is opened: the fetch
followed by `get_all_solutions` on the fetched page. -/
def extractionOutcome (fetched : Except PyError Page) :
    Except PyError (List Solution) :=
  match fetched with
  | .error e => .error e
  | .ok page => get_all_solutions page

/-- The round-trip scenario page: one header image with alt text
`"AWS Icon"` and one data row `["Compute", "VM", <a href='http://x'>EC2</a>]`. -/
def c4Page : Page :=
  ⟨some [⟨[⟨some "AWS Icon".toList⟩], []⟩,
         ⟨[], [⟨"Compute".toList, []⟩, ⟨"VM".toList, []⟩,
               ⟨"EC2".toList, [⟨"EC2".toList, some "http://x".toList⟩]⟩]⟩]⟩

/-- A malformed data row holding a single cell. -/
def c7Row : Row := ⟨[], [⟨"OnlyOne".toList, []⟩]⟩

/-- A data row whose platform cell holds a named hyperlink without an
`href` attribute. -/
def c8Row : Row :=
  ⟨[], [⟨"Cat".toList, []⟩, ⟨"Svc".toList, []⟩,
        ⟨[], [⟨"S3".toList, none⟩]⟩]⟩

/-- The platform cell of `c8Row`. -/
def c8Cell : Cell := ⟨[], [⟨"S3".toList, none⟩]⟩

/-- The hyperlink of `c8Cell`: named, but without an `href` attribute. -/
def c8Link : Link := ⟨"S3".toList, none⟩

/-- A string matches `_platform_name_re` exactly when it splits into a
group-1 prefix free of newlines, at least one whitespace character, one of
the keyword alternatives, and then either nothing or the single trailing
newline tolerated by `$`. -/
def PatMatches (s : Str) : Prop :=
  ∃ p w k t, s = p ++ w ++ k ++ t ∧ '\n' ∉ p ∧ w ≠ [] ∧
    (∀ c ∈ w, isPyWhitespace c = true) ∧ k ∈ kwAlternatives ∧
    (t = [] ∨ t = ['\n'])

theorem extractLinks_ok_length {platforms : List Str} {category service : Str}
    {i : Nat} {links : List Link} {xs : List Solution}
    (h : extractLinks platforms category service i links = .ok xs) :
    xs.length = (links.filter (fun l => !l.text.isEmpty)).length := by
  induction links generalizing xs with
  | nil =>
    simp only [extractLinks, Except.ok.injEq] at h
    simp [← h]
  | cons link rest ih =>
    cases he : link.text.isEmpty with
    | true =>
      simp only [extractLinks, he, if_true] at h
      simp [List.filter_cons, he, ih h]
    | false =>
      simp only [extractLinks, he, Bool.false_eq_true, if_false] at h
      cases hp : platforms[i]? with
      | none => simp [hp] at h
      | some platform =>
        simp only [hp] at h
        cases hh : link.href with
        | none => simp [hh] at h
        | some href =>
          simp only [hh] at h
          cases hr : extractLinks platforms category service i rest with
          | error e => simp [hr, Except.bind, Bind.bind] at h
          | ok tail =>
            simp only [hr, Except.bind, Bind.bind, Except.ok.injEq] at h
            simp [← h, List.filter_cons, he, ih hr]

theorem extractCells_ok_length {platforms : List Str} {category service : Str}
    {i : Nat} {cells : List Cell} {xs : List Solution}
    (h : extractCells platforms category service i cells = .ok xs) :
    xs.length = (cells.map cellLinkCount).sum := by
  induction cells generalizing i xs with
  | nil =>
    simp only [extractCells, Except.ok.injEq] at h
    simp [← h]
  | cons column rest ih =>
    simp only [extractCells] at h
    cases h1 : extractLinks platforms category service i column.links with
    | error e => simp [h1, Except.bind, Bind.bind] at h
    | ok here =>
      simp only [h1] at h
      cases h2 : extractCells platforms category service (i + 1) rest with
      | error e => simp [h1, h2, Except.bind, Bind.bind] at h
      | ok there =>
        simp only [h1, h2, Except.bind, Bind.bind, Except.ok.injEq] at h
        simp [← h, extractLinks_ok_length h1, ih h2, cellLinkCount]

theorem extractRow_ok_length {platforms : List Str} {row : Row}
    {xs : List Solution}
    (h : extractRow platforms row = .ok xs) :
    xs.length = rowLinkCount row := by
  match hr : row.tds with
  | [] => simp [extractRow, hr] at h
  | [c0] => simp [extractRow, hr] at h
  | c0 :: c1 :: rest =>
    simp only [extractRow, hr] at h
    simpa [rowLinkCount, hr] using extractCells_ok_length h

theorem extractRows_ok_length {platforms : List Str} {rows : List Row}
    {xs : List Solution}
    (h : extractRows platforms rows = .ok xs) :
    xs.length = (rows.map rowLinkCount).sum := by
  induction rows generalizing xs with
  | nil =>
    simp only [extractRows, Except.ok.injEq] at h
    simp [← h]
  | cons row rest ih =>
    simp only [extractRows] at h
    cases h1 : extractRow platforms row with
    | error e => simp [h1, Except.bind, Bind.bind] at h
    | ok here =>
      simp only [h1] at h
      cases h2 : extractRows platforms rest with
      | error e => simp [h2, Except.bind, Bind.bind] at h
      | ok there =>
        simp only [h2, Except.bind, Bind.bind, Except.ok.injEq] at h
        simp [← h, extractRow_ok_length h1, ih h2]

theorem extractLinks_ok_spec {platforms : List Str} {category service : Str}
    {i : Nat} {links : List Link} {xs : List Solution}
    (h : extractLinks platforms category service i links = .ok xs) :
    xs = links.filterMap (specLink platforms category service i) := by
  induction links generalizing xs with
  | nil =>
    simp only [extractLinks, Except.ok.injEq] at h
    simp [← h]
  | cons link rest ih =>
    cases he : link.text.isEmpty with
    | true =>
      simp only [extractLinks, he, if_true] at h
      simp [List.filterMap_cons, specLink, he, ih h]
    | false =>
      simp only [extractLinks, he, Bool.false_eq_true, if_false] at h
      cases hp : platforms[i]? with
      | none => simp [hp] at h
      | some platform =>
        simp only [hp] at h
        cases hh : link.href with
        | none => simp [hh] at h
        | some href =>
          simp only [hh] at h
          cases hr : extractLinks platforms category service i rest with
          | error e => simp [hr, Except.bind, Bind.bind] at h
          | ok tail =>
            simp only [hr, Except.bind, Bind.bind, Except.ok.injEq] at h
            simp [← h, List.filterMap_cons, specLink, he, hp, hh, ih hr]

theorem extractCells_ok_spec {platforms : List Str} {category service : Str}
    {i : Nat} {cells : List Cell} {xs : List Solution}
    (h : extractCells platforms category service i cells = .ok xs) :
    xs = specCells platforms category service i cells := by
  induction cells generalizing i xs with
  | nil =>
    simp only [extractCells, Except.ok.injEq] at h
    simp [← h, specCells]
  | cons column rest ih =>
    simp only [extractCells] at h
    cases h1 : extractLinks platforms category service i column.links with
    | error e => simp [h1, Except.bind, Bind.bind] at h
    | ok here =>
      simp only [h1] at h
      cases h2 : extractCells platforms category service (i + 1) rest with
      | error e => simp [h2, Except.bind, Bind.bind] at h
      | ok there =>
        simp only [h2, Except.bind, Bind.bind, Except.ok.injEq] at h
        simp [← h, specCells, extractLinks_ok_spec h1, ih h2]

theorem extractRow_ok_spec {platforms : List Str} {row : Row}
    {xs : List Solution}
    (h : extractRow platforms row = .ok xs) :
    xs = specRow platforms row := by
  match hr : row.tds with
  | [] => simp [extractRow, hr] at h
  | [c0] => simp [extractRow, hr] at h
  | c0 :: c1 :: rest =>
    simp only [extractRow, hr] at h
    simp [specRow, hr, extractCells_ok_spec h]

theorem extractRows_ok_spec {platforms : List Str} {rows : List Row}
    {xs : List Solution}
    (h : extractRows platforms rows = .ok xs) :
    xs = (rows.map (specRow platforms)).flatten := by
  induction rows generalizing xs with
  | nil =>
    simp only [extractRows, Except.ok.injEq] at h
    simp [← h]
  | cons row rest ih =>
    simp only [extractRows] at h
    cases h1 : extractRow platforms row with
    | error e => simp [h1, Except.bind, Bind.bind] at h
    | ok here =>
      simp only [h1] at h
      cases h2 : extractRows platforms rest with
      | error e => simp [h2, Except.bind, Bind.bind] at h
      | ok there =>
        simp only [h2, Except.bind, Bind.bind, Except.ok.injEq] at h
        simp [← h, extractRow_ok_spec h1, ih h2]

/-- Shared with several claims: on success, `get_table_data` returns exactly
the records described by the ordering specification, for the platform names
of the header row. -/
theorem get_table_data_ok_spec {rows : List Row} {platforms : List Str}
    {sols : List Solution}
    (hh : get_table_headers rows = .ok platforms)
    (h : get_table_data rows = .ok sols) :
    sols = specRecords platforms rows := by
  simp only [get_table_data, hh, Except.bind, Bind.bind] at h
  exact extractRows_ok_spec h

/-- C1: for every table on which row extraction succeeds, the number of
returned `Solution` records equals the total count of hyperlinks with
non-empty visible text contained in the platform-column cells of all data
rows; no record is emitted for a hyperlink whose visible text is empty. -/
theorem c1_record_count {rows : List Row} {sols : List Solution}
    (h : get_table_data rows = .ok sols) :
    sols.length = ((rows.drop 1).map rowLinkCount).sum := by
  simp only [get_table_data] at h
  cases h0 : get_table_headers rows with
  | error e => simp [h0, Except.bind, Bind.bind] at h
  | ok platforms =>
    simp only [h0, Except.bind, Bind.bind] at h
    exact extractRows_ok_length h

theorem c1_record_count_witness :
    get_table_data wRows = .ok wSols ∧
      wSols.length = ((wRows.drop 1).map rowLinkCount).sum :=
  ⟨by decide, c1_record_count (by decide)⟩

/-- C2: on success, the record sequence returned by `get_table_data` is
exactly the one prescribed by the ordering specification: row-major over the
data rows, column-major over the platform columns inside a row, and
link-document order inside a cell. -/
theorem c2_record_ordering {rows : List Row} {platforms : List Str}
    {sols : List Solution}
    (hh : get_table_headers rows = .ok platforms)
    (h : get_table_data rows = .ok sols) :
    sols = specRecords platforms rows :=
  get_table_data_ok_spec hh h

theorem c2_record_ordering_witness :
    get_table_headers wRows = .ok wPlatforms ∧
      get_table_data wRows = .ok wSols ∧
      wSols = specRecords wPlatforms wRows :=
  ⟨by decide, by decide, c2_record_ordering (by decide) (by decide)⟩

theorem specLink_eq_some {platforms : List Str} {category service : Str}
    {i : Nat} {link : Link} {sol : Solution}
    (h : specLink platforms category service i link = some sol) :
    link.text.isEmpty = false ∧ platforms[i]? = some sol.platform ∧
      link.href = some sol.description ∧ sol.category = category ∧
      sol.service = service ∧ sol.name = link.text := by
  unfold specLink at h
  cases he : link.text.isEmpty with
  | true => simp [he] at h
  | false =>
    simp only [he, Bool.false_eq_true, if_false] at h
    cases hp : platforms[i]? with
    | none => simp [hp] at h
    | some platform =>
      cases hh : link.href with
      | none => simp [hp, hh] at h
      | some href =>
        simp only [hp, hh, Option.some.injEq] at h
        subst h
        exact ⟨rfl, rfl, rfl, rfl, rfl, rfl⟩

theorem mem_specCells {platforms : List Str} {category service : Str}
    {i : Nat} {cells : List Cell} {sol : Solution}
    (h : sol ∈ specCells platforms category service i cells) :
    ∃ j column link, cells[j]? = some column ∧ link ∈ column.links ∧
      specLink platforms category service (i + j) link = some sol := by
  induction cells generalizing i with
  | nil => simp [specCells] at h
  | cons column rest ih =>
    simp only [specCells, List.mem_append] at h
    cases h with
    | inl h =>
      obtain ⟨link, hlink, hspec⟩ := List.mem_filterMap.mp h
      exact ⟨0, column, link, by simp, hlink, hspec⟩
    | inr h =>
      obtain ⟨j, c, l, hc, hl, hs⟩ := ih h
      refine ⟨j + 1, c, l, by simpa using hc, hl, ?_⟩
      have : i + (j + 1) = i + 1 + j := by omega
      rw [this]
      exact hs

/-- C5: every record returned by a successful extraction carries as its
platform one of the header's platform names — specifically the name whose
index in the header sequence equals the index of the platform column (cell
position minus two) in which the record's hyperlink was found. -/
theorem mem_specRow {platforms : List Str} {row : Row} {sol : Solution}
    (h : sol ∈ specRow platforms row) :
    ∃ category service j column link,
      (row.tds.drop 2)[j]? = some column ∧ link ∈ column.links ∧
      specLink platforms category service j link = some sol := by
  unfold specRow at h
  rcases htds : row.tds with _ | ⟨c0, _ | ⟨c1, rest⟩⟩
  · rw [htds] at h; simp at h
  · rw [htds] at h; simp at h
  · rw [htds] at h
    have h' : sol ∈ specCells platforms c0.text c1.text 0 rest := h
    obtain ⟨j, column, link, hc, hlink, hs⟩ := mem_specCells h'
    exact ⟨c0.text, c1.text, j, column, link, by simp [htds, hc], hlink,
      by simpa using hs⟩

/-- C5: every record returned by a successful extraction carries as its
platform one of the header's platform names — specifically the name whose
index in the header sequence equals the index of the platform column (cell
position minus two) in which the record's hyperlink was found. -/
theorem c5_platform_invariant {rows : List Row} {platforms : List Str}
    {sols : List Solution} {sol : Solution}
    (hh : get_table_headers rows = .ok platforms)
    (h : get_table_data rows = .ok sols)
    (hmem : sol ∈ sols) :
    sol.platform ∈ platforms ∧
      ∃ (row : Row) (j : Nat) (column : Cell) (link : Link),
        row ∈ rows.drop 1 ∧
        (row.tds.drop 2)[j]? = some column ∧ link ∈ column.links ∧
        platforms[j]? = some sol.platform ∧ sol.name = link.text := by
  rw [get_table_data_ok_spec hh h] at hmem
  simp only [specRecords, List.mem_flatten] at hmem
  obtain ⟨l, hl, hsol⟩ := hmem
  obtain ⟨row, hrow, rfl⟩ := List.mem_map.mp hl
  obtain ⟨category, service, j, column, link, hc, hlink, hs⟩ := mem_specRow hsol
  obtain ⟨-, hp, -, -, -, hname⟩ := specLink_eq_some hs
  refine ⟨?_, row, j, column, link, hrow, hc, hlink, hp, hname⟩
  obtain ⟨hlt, hget⟩ := List.getElem?_eq_some_iff.mp hp
  exact hget ▸ List.getElem_mem hlt

theorem c5_platform_invariant_witness :
    get_table_headers wRows = .ok wPlatforms ∧
      get_table_data wRows = .ok wSols ∧ wSol0 ∈ wSols ∧
      (wSol0.platform ∈ wPlatforms ∧
        ∃ (row : Row) (j : Nat) (column : Cell) (link : Link),
          row ∈ wRows.drop 1 ∧
          (row.tds.drop 2)[j]? = some column ∧ link ∈ column.links ∧
          wPlatforms[j]? = some wSol0.platform ∧ wSol0.name = link.text) :=
  ⟨by decide, by decide, by decide,
    @c5_platform_invariant wRows wPlatforms wSols wSol0
      (by decide) (by decide) (by decide)⟩

/-- C6: whenever the part of the run that precedes opening the output file —
the fetch and the whole extraction — fails with an error, the `__main__`
block fails with that same error and performs no file write: every record is
collected in memory strictly before the output file is opened. -/
theorem c6_no_write_on_failure {fetched : Except PyError Page} {e : PyError}
    (h : extractionOutcome fetched = .error e) :
    scrapper_main fetched = .error e := by
  cases fetched with
  | error e' =>
    simp only [extractionOutcome, Except.error.injEq] at h
    simp [scrapper_main, h]
  | ok page =>
    simp only [extractionOutcome] at h
    simp [scrapper_main, h]

theorem c6_no_write_on_failure_witness :
    extractionOutcome (.ok ⟨none⟩) = .error .attributeError ∧
      scrapper_main (.ok ⟨none⟩) = .error .attributeError :=
  ⟨by decide, c6_no_write_on_failure (by decide)⟩

/-- C4: the complete pipeline on the round-trip scenario table produces
exactly the text `Category,Service,Platform,Solution,Description` then one
newline, then `Compute,VM,AWS,EC2,http://x`, with no trailing newline. -/
theorem c4_round_trip :
    fileContent (.ok c4Page) =
      .ok ("Category,Service,Platform,Solution,Description\nCompute,VM,AWS,EC2,http://x".toList) := by
  decide

theorem extractRows_middle_ok_nil {platforms : List Str} {row : Row}
    (rs1 rs2 : List Row) (h : extractRow platforms row = .ok []) :
    extractRows platforms (rs1 ++ row :: rs2) =
      extractRows platforms (rs1 ++ rs2) := by
  induction rs1 with
  | nil =>
    simp only [List.nil_append, extractRows, h]
    cases h2 : extractRows platforms rs2 <;>
      simp [Except.bind, Bind.bind, h2]
  | cons r rest ih =>
    simp only [List.cons_append, extractRows]
    cases h1 : extractRow platforms r with
    | error e => simp [h1, Except.bind, Bind.bind]
    | ok here => simp [h1, Except.bind, Bind.bind, ih]

theorem get_table_data_cons (hdr : Row) (rows : List Row) :
    get_table_data (hdr :: rows) =
      match altNames hdr.imgs with
      | .error e => .error e
      | .ok platforms => extractRows platforms rows := by
  cases hh : altNames hdr.imgs <;>
    simp [get_table_data, get_table_headers, hh, Except.bind, Bind.bind]

/-- C10: a data row with exactly two cells (category and service only, no
platform columns) contributes no record and causes no failure, whatever the
header's platform names: extraction of a table containing it returns exactly
what extraction of the same table without it returns. -/
theorem c10_two_cell_row (hdr : Row) (rs1 rs2 : List Row) (imgs : List Img)
    (c0 c1 : Cell) :
    get_table_data (hdr :: rs1 ++ (⟨imgs, [c0, c1]⟩ : Row) :: rs2) =
      get_table_data (hdr :: rs1 ++ rs2) := by
  simp only [List.cons_append]
  rw [get_table_data_cons hdr (rs1 ++ (⟨imgs, [c0, c1]⟩ : Row) :: rs2),
    get_table_data_cons hdr (rs1 ++ rs2)]
  cases hh : altNames hdr.imgs with
  | error e => rfl
  | ok platforms => exact extractRows_middle_ok_nil rs1 rs2 rfl

/-! ### Which faults the source can actually raise -/

theorem altNames_error_eq {imgs : List Img} {e : PyError}
    (h : altNames imgs = .error e) : e = .keyError := by
  induction imgs with
  | nil => simp [altNames] at h
  | cons img rest ih =>
    simp only [altNames] at h
    cases ha : img.alt with
    | none =>
      rw [ha] at h
      simp only [Except.error.injEq] at h
      exact h.symm
    | some a =>
      rw [ha] at h
      cases hr : altNames rest with
      | error e' =>
        simp only [hr, Except.bind, Bind.bind, Except.error.injEq] at h
        subst h
        exact ih hr
      | ok tail => simp [hr, Except.bind, Bind.bind] at h

theorem extractLinks_error_eq {platforms : List Str} {category service : Str}
    {i : Nat} {links : List Link} {e : PyError}
    (h : extractLinks platforms category service i links = .error e) :
    e = .indexError ∨ e = .keyError := by
  induction links with
  | nil => simp [extractLinks] at h
  | cons link rest ih =>
    cases he : link.text.isEmpty with
    | true =>
      simp only [extractLinks, he, if_true] at h
      exact ih h
    | false =>
      simp only [extractLinks, he, Bool.false_eq_true, if_false] at h
      cases hp : platforms[i]? with
      | none =>
        rw [hp] at h
        simp only [Except.error.injEq] at h
        exact Or.inl h.symm
      | some platform =>
        rw [hp] at h
        cases hh : link.href with
        | none =>
          rw [hh] at h
          simp only [Except.error.injEq] at h
          exact Or.inr h.symm
        | some href =>
          rw [hh] at h
          cases hr : extractLinks platforms category service i rest with
          | error e' =>
            simp only [hr, Except.bind, Bind.bind, Except.error.injEq] at h
            subst h
            exact ih hr
          | ok tail => simp [hr, Except.bind, Bind.bind] at h

theorem extractCells_error_eq {platforms : List Str} {category service : Str}
    {i : Nat} {cells : List Cell} {e : PyError}
    (h : extractCells platforms category service i cells = .error e) :
    e = .indexError ∨ e = .keyError := by
  induction cells generalizing i with
  | nil => simp [extractCells] at h
  | cons column rest ih =>
    simp only [extractCells] at h
    cases h1 : extractLinks platforms category service i column.links with
    | error e' =>
      simp only [h1, Except.bind, Bind.bind, Except.error.injEq] at h
      subst h
      exact extractLinks_error_eq h1
    | ok here =>
      simp only [h1] at h
      cases h2 : extractCells platforms category service (i + 1) rest with
      | error e' =>
        simp only [h2, Except.bind, Bind.bind, Except.error.injEq] at h
        subst h
        exact ih h2
      | ok there => simp [h2, Except.bind, Bind.bind] at h

theorem extractRow_error_eq {platforms : List Str} {row : Row} {e : PyError}
    (h : extractRow platforms row = .error e) :
    e = .indexError ∨ e = .keyError := by
  rcases htds : row.tds with _ | ⟨c0, _ | ⟨c1, rest⟩⟩
  · rw [extractRow, htds] at h
    simp only [Except.error.injEq] at h
    exact Or.inl h.symm
  · rw [extractRow, htds] at h
    simp only [Except.error.injEq] at h
    exact Or.inl h.symm
  · rw [extractRow, htds] at h
    exact extractCells_error_eq h

theorem extractRows_error_eq {platforms : List Str} {rows : List Row}
    {e : PyError}
    (h : extractRows platforms rows = .error e) :
    e = .indexError ∨ e = .keyError := by
  induction rows with
  | nil => simp [extractRows] at h
  | cons row rest ih =>
    simp only [extractRows] at h
    cases h1 : extractRow platforms row with
    | error e' =>
      simp only [h1, Except.bind, Bind.bind, Except.error.injEq] at h
      subst h
      exact extractRow_error_eq h1
    | ok here =>
      simp only [h1] at h
      cases h2 : extractRows platforms rest with
      | error e' =>
        simp only [h2, Except.bind, Bind.bind, Except.error.injEq] at h
        subst h
        exact ih h2
      | ok there => simp [h2, Except.bind, Bind.bind] at h

theorem get_table_data_error_eq {rows : List Row} {e : PyError}
    (h : get_table_data rows = .error e) :
    e = .indexError ∨ e = .keyError := by
  simp only [get_table_data] at h
  cases h0 : get_table_headers rows with
  | error e' =>
    simp only [h0, Except.bind, Bind.bind, Except.error.injEq] at h
    subst h
    cases rows with
    | nil =>
      simp only [get_table_headers, Except.error.injEq] at h0
      exact Or.inl h0.symm
    | cons hdr rest =>
      simp only [get_table_headers] at h0
      exact Or.inr (altNames_error_eq h0)
  | ok platforms =>
    simp only [h0, Except.bind, Bind.bind] at h
    exact extractRows_error_eq h

/-! ### Failure propagation through the row loop -/

theorem extractRows_fails {platforms : List Str} {rows : List Row} {row : Row}
    (hmem : row ∈ rows)
    (hfail : ∃ e, extractRow platforms row = .error e) :
    ∃ e, extractRows platforms rows = .error e := by
  induction rows with
  | nil => simp at hmem
  | cons r rest ih =>
    rcases List.mem_cons.mp hmem with rfl | hmem'
    · obtain ⟨e, he⟩ := hfail
      exact ⟨e, by simp [extractRows, he, Except.bind, Bind.bind]⟩
    · cases h1 : extractRow platforms r with
      | error e =>
        exact ⟨e, by simp [extractRows, h1, Except.bind, Bind.bind]⟩
      | ok here =>
        obtain ⟨e, he⟩ := ih hmem'
        exact ⟨e, by simp [extractRows, h1, he, Except.bind, Bind.bind]⟩

theorem get_table_data_fails {hdr : Row} {rows : List Row} {row : Row}
    (hmem : row ∈ rows)
    (hfail : ∀ platforms, ∃ e, extractRow platforms row = .error e) :
    ∃ e, get_table_data (hdr :: rows) = .error e ∧ e ≠ .structureError := by
  rw [get_table_data_cons]
  cases hh : altNames hdr.imgs with
  | error e =>
    refine ⟨e, rfl, ?_⟩
    rw [altNames_error_eq hh]
    decide
  | ok platforms =>
    obtain ⟨e, he⟩ := extractRows_fails hmem (hfail platforms)
    refine ⟨e, he, ?_⟩
    rcases extractRows_error_eq he with rfl | rfl <;> decide

/-- C7 counterexample: on a table whose data row has a single cell, the
source faults with the raw `IndexError`, not the `StructureError` that the
claim asserts. -/
theorem c7_counterexample :
    get_table_data [wHeaderRow, c7Row] = .error PyError.indexError ∧
      PyError.indexError ≠ PyError.structureError := by decide

/-- C7 amended: a data row with fewer than two cells makes extraction fail
with a raw fault — the row itself would raise the index-out-of-bounds
`IndexError` — and never with the classified `StructureError` that the
specification demands. -/
theorem c7_amended {hdr : Row} {rows : List Row} {row : Row}
    (hmem : row ∈ rows) (hlen : row.tds.length < 2) :
    ∃ e, get_table_data (hdr :: rows) = .error e ∧ e ≠ .structureError := by
  refine get_table_data_fails hmem (fun platforms => ⟨.indexError, ?_⟩)
  rcases htds : row.tds with _ | ⟨c0, _ | ⟨c1, rest⟩⟩
  · rw [extractRow, htds]
  · rw [extractRow, htds]
  · exfalso
    rw [htds] at hlen
    simp at hlen
    omega

theorem c7_amended_witness :
    c7Row ∈ [c7Row] ∧ c7Row.tds.length < 2 ∧
      ∃ e, get_table_data (wHeaderRow :: [c7Row]) = .error e ∧
        e ≠ PyError.structureError :=
  ⟨by decide, by decide,
    @c7_amended wHeaderRow [c7Row] c7Row (by decide) (by decide)⟩

theorem extractLinks_fails {platforms : List Str} {category service : Str}
    {i : Nat} {links : List Link} {link : Link}
    (hmem : link ∈ links) (htext : link.text.isEmpty = false)
    (hhref : link.href = none) :
    ∃ e, extractLinks platforms category service i links = .error e := by
  induction links with
  | nil => simp at hmem
  | cons l rest ih =>
    rcases List.mem_cons.mp hmem with rfl | hmem'
    · cases hp : platforms[i]? with
      | none => exact ⟨.indexError, by simp [extractLinks, htext, hp]⟩
      | some p =>
        exact ⟨.keyError, by simp [extractLinks, htext, hp, hhref]⟩
    · cases he : l.text.isEmpty with
      | true =>
        obtain ⟨e, hee⟩ := ih hmem'
        exact ⟨e, by simp [extractLinks, he, hee]⟩
      | false =>
        cases hp : platforms[i]? with
        | none => exact ⟨.indexError, by simp [extractLinks, he, hp]⟩
        | some p =>
          cases hh : l.href with
          | none => exact ⟨.keyError, by simp [extractLinks, he, hp, hh]⟩
          | some href =>
            obtain ⟨e, hee⟩ := ih hmem'
            exact ⟨e, by simp [extractLinks, he, hp, hh, hee, Except.bind,
              Bind.bind]⟩

theorem extractCells_fails {platforms : List Str} {category service : Str}
    {i : Nat} {cells : List Cell} {column : Cell}
    (hmem : column ∈ cells)
    (hfail : ∀ j, ∃ e,
      extractLinks platforms category service j column.links = .error e) :
    ∃ e, extractCells platforms category service i cells = .error e := by
  induction cells generalizing i with
  | nil => simp at hmem
  | cons c rest ih =>
    rcases List.mem_cons.mp hmem with rfl | hmem'
    · obtain ⟨e, he⟩ := hfail i
      exact ⟨e, by simp [extractCells, he, Except.bind, Bind.bind]⟩
    · cases h1 : extractLinks platforms category service i c.links with
      | error e =>
        exact ⟨e, by simp [extractCells, h1, Except.bind, Bind.bind]⟩
      | ok here =>
        obtain ⟨e, he⟩ := @ih (i + 1) hmem'
        exact ⟨e, by simp [extractCells, h1, he, Except.bind, Bind.bind]⟩

theorem extractRow_fails_of_bad_link {platforms : List Str} {row : Row}
    {column : Cell} {link : Link}
    (hcol : column ∈ row.tds.drop 2) (hlink : link ∈ column.links)
    (htext : link.text.isEmpty = false) (hhref : link.href = none) :
    ∃ e, extractRow platforms row = .error e := by
  rcases htds : row.tds with _ | ⟨c0, _ | ⟨c1, rest⟩⟩
  · exact ⟨.indexError, by rw [extractRow, htds]⟩
  · exact ⟨.indexError, by rw [extractRow, htds]⟩
  · rw [htds] at hcol
    simp only [List.drop_succ_cons, List.drop_zero] at hcol
    obtain ⟨e, he⟩ := @extractCells_fails platforms c0.text c1.text 0 rest
      column hcol
      (fun j => @extractLinks_fails platforms c0.text c1.text j column.links
        link hlink htext hhref)
    exact ⟨e, by rw [extractRow, htds]; exact he⟩

/-- C8 counterexample: on a table whose platform cell holds a named link
without an `href`, the source faults with the raw `KeyError`, not the
`StructureError` that the claim asserts. -/
theorem c8_counterexample :
    get_table_data [wHeaderRow, c8Row] = .error PyError.keyError ∧
      PyError.keyError ≠ PyError.structureError := by decide

/-- C8 amended: a hyperlink with non-empty visible text but no
target-reference attribute in a platform-column cell makes extraction fail
with a raw fault — at the link itself, the missing-key `KeyError` — and
never with the classified `StructureError` that the specification demands. -/
theorem c8_amended {hdr : Row} {rows : List Row} {row : Row} {column : Cell}
    {link : Link}
    (hrow : row ∈ rows) (hcol : column ∈ row.tds.drop 2)
    (hlink : link ∈ column.links)
    (htext : link.text.isEmpty = false) (hhref : link.href = none) :
    ∃ e, get_table_data (hdr :: rows) = .error e ∧ e ≠ .structureError :=
  get_table_data_fails hrow
    (fun _ => extractRow_fails_of_bad_link hcol hlink htext hhref)

theorem c8_amended_witness :
    c8Row ∈ [c8Row] ∧ c8Cell ∈ c8Row.tds.drop 2 ∧ c8Link ∈ c8Cell.links ∧
      c8Link.text.isEmpty = false ∧ c8Link.href = none ∧
      ∃ e, get_table_data (wHeaderRow :: [c8Row]) = .error e ∧
        e ≠ PyError.structureError :=
  ⟨by decide, by decide, by decide, by decide, by decide,
    @c8_amended wHeaderRow [c8Row] c8Row c8Cell c8Link
      (by decide) (by decide) (by decide) (by decide) (by decide)⟩

/-- C9 counterexample: a page with no `comparison` table makes the locating
stage fault with the raw `AttributeError`, not a `StructureError`; and a
`comparison` table with zero rows makes the locating stage succeed with the
empty sequence instead of signalling anything. -/
theorem c9_counterexample :
    get_table_rows ⟨none⟩ = .error PyError.attributeError ∧
      PyError.attributeError ≠ PyError.structureError ∧
      get_table_rows ⟨some []⟩ = .ok ([] : List Row) := by decide

/-- C9 amended: when the page has no table with id `comparison`, the
locating stage fails with the raw `AttributeError` (method call on `None`),
not a classified `StructureError`; when the table exists but has zero rows,
the locating stage succeeds with the empty row sequence and the run fails
later, with `IndexError`, at header extraction. -/
theorem c9_amended {page : Page} :
    (page.comparisonTable = none →
      get_table_rows page = .error .attributeError ∧
      get_all_solutions page = .error .attributeError) ∧
    (page.comparisonTable = some [] →
      get_table_rows page = .ok [] ∧
      get_all_solutions page = .error .indexError) := by
  constructor <;> intro h <;>
    simp [get_all_solutions, get_table_rows, h, get_table_data,
      get_table_headers, Except.bind, Bind.bind]

theorem c9_amended_witness :
    (Page.mk none).comparisonTable = none ∧
      get_all_solutions ⟨none⟩ = .error PyError.attributeError ∧
      (Page.mk (some [])).comparisonTable = some [] ∧
      get_all_solutions ⟨some []⟩ = .error PyError.indexError :=
  ⟨rfl, ((@c9_amended ⟨none⟩).1 rfl).2, rfl, ((@c9_amended ⟨some []⟩).2 rfl).2⟩

/-! ### The regular expression `_platform_name_re` -/

theorem findSplit_some {s : Str} {n i : Nat} (h : findSplit s n = some i) :
    validSplit s i = true ∧
      ∀ j, i < j → j ≤ n → validSplit s j = false := by
  induction n with
  | zero =>
    rw [findSplit] at h
    split at h
    · injection h with h'
      subst h'
      refine ⟨by assumption, ?_⟩
      intro j hj1 hj2
      omega
    · cases h
  | succ n ih =>
    rw [findSplit] at h
    split at h
    · injection h with h'
      subst h'
      refine ⟨by assumption, ?_⟩
      intro j hj1 hj2
      omega
    · obtain ⟨h1, h2⟩ := ih h
      refine ⟨h1, ?_⟩
      intro j hj1 hj2
      rcases Nat.lt_or_ge j (n + 1) with hlt | hge
      · exact h2 j hj1 (by omega)
      · have hj : j = n + 1 := by omega
        subst hj
        rename_i hnv
        simpa using hnv
  
theorem findSplit_none {s : Str} {n : Nat} (h : findSplit s n = none) :
    ∀ j, j ≤ n → validSplit s j = false := by
  induction n with
  | zero =>
    rw [findSplit] at h
    split at h
    · cases h
    · intro j hj
      have hj0 : j = 0 := by omega
      subst hj0
      rename_i hnv
      simpa using hnv
  | succ n ih =>
    rw [findSplit] at h
    split at h
    · cases h
    · intro j hj
      rcases Nat.lt_or_ge j (n + 1) with hlt | hge
      · exact ih h j (by omega)
      · have hj' : j = n + 1 := by omega
        subst hj'
        rename_i hnv
        simpa using hnv

theorem findSplit_eq_some_of {s : Str} {n i : Nat}
    (hv : validSplit s i = true) (hi : i ≤ n)
    (hmax : ∀ j, i < j → j ≤ n → validSplit s j = false) :
    findSplit s n = some i := by
  induction n with
  | zero =>
    have hi0 : i = 0 := by omega
    subst hi0
    rw [findSplit]
    simp [hv]
  | succ n ih =>
    rw [findSplit]
    by_cases hend : i = n + 1
    · subst hend
      simp [hv]
    · have hvn : validSplit s (n + 1) = false :=
        hmax (n + 1) (by omega) (by omega)
      simp only [hvn, Bool.false_eq_true, if_false]
      exact ih (by omega) (fun j hj1 hj2 => hmax j hj1 (by omega))

theorem tailMatchesCore_of_append {w k : Str} (hw : w ≠ [])
    (hws : ∀ c ∈ w, isPyWhitespace c = true) (hk : k ∈ kwAlternatives) :
    tailMatchesCore (w ++ k) = true := by
  unfold tailMatchesCore
  rw [List.any_eq_true]
  refine ⟨k, hk, ?_⟩
  have hwlen : 0 < w.length := List.length_pos.mpr hw
  have hlen : (w ++ k).length - k.length = w.length := by
    rw [List.length_append]
    omega
  have h1 : k.length < (w ++ k).length := by
    rw [List.length_append]
    omega
  have h2 : (w ++ k).drop ((w ++ k).length - k.length) = k := by
    rw [hlen]
    exact List.drop_left w k
  have h3 : (w ++ k).take ((w ++ k).length - k.length) = w := by
    rw [hlen]
    exact List.take_left w k
  simp only [h2, h3, decide_eq_true_eq, Bool.and_eq_true, List.all_eq_true]
  exact ⟨⟨h1, trivial⟩, hws⟩

theorem tailMatches_of_decomp {w k t : Str} (hw : w ≠ [])
    (hws : ∀ c ∈ w, isPyWhitespace c = true) (hk : k ∈ kwAlternatives)
    (ht : t = [] ∨ t = ['\n']) :
    tailMatches (w ++ k ++ t) = true := by
  rcases ht with rfl | rfl
  · rw [List.append_nil]
    unfold tailMatches
    rw [tailMatchesCore_of_append hw hws hk]
    rfl
  · unfold tailMatches
    have hg : (w ++ k ++ ['\n']).getLast? = some '\n' :=
      List.getLast?_concat _
    have hd : (w ++ k ++ ['\n']).dropLast = w ++ k := List.dropLast_concat
    rw [hg, hd, tailMatchesCore_of_append hw hws hk]
    simp

theorem validSplit_append {p w k t : Str} (hp : '\n' ∉ p) (hw : w ≠ [])
    (hws : ∀ c ∈ w, isPyWhitespace c = true) (hk : k ∈ kwAlternatives)
    (ht : t = [] ∨ t = ['\n']) :
    validSplit (p ++ (w ++ k ++ t)) p.length = true := by
  unfold validSplit
  rw [List.take_left, List.drop_left, tailMatches_of_decomp hw hws hk ht]
  have h1 : p.all (fun c => c != '\n') = true := by
    rw [List.all_eq_true]
    intro c hc
    rw [bne_iff_ne]
    intro hceq
    exact hp (hceq ▸ hc)
  rw [h1]
  rfl

theorem decomp_of_tailMatchesCore {r : Str} (h : tailMatchesCore r = true) :
    ∃ w k, r = w ++ k ∧ w ≠ [] ∧ (∀ c ∈ w, isPyWhitespace c = true) ∧
      k ∈ kwAlternatives := by
  unfold tailMatchesCore at h
  rw [List.any_eq_true] at h
  obtain ⟨k, hk, hcond⟩ := h
  simp only [Bool.and_eq_true, decide_eq_true_eq, List.all_eq_true] at hcond
  obtain ⟨⟨hlt, hdrop⟩, hall⟩ := hcond
  refine ⟨r.take (r.length - k.length), k, ?_, ?_, hall, hk⟩
  · conv_lhs => rw [← List.take_append_drop (r.length - k.length) r]
    rw [hdrop]
  · have hlen : (r.take (r.length - k.length)).length = r.length - k.length := by
      rw [List.length_take]
      omega
    intro hnil
    rw [hnil] at hlen
    simp only [List.length_nil] at hlen
    omega

theorem decomp_of_tailMatches {r : Str} (h : tailMatches r = true) :
    ∃ w k t, r = w ++ k ++ t ∧ w ≠ [] ∧
      (∀ c ∈ w, isPyWhitespace c = true) ∧ k ∈ kwAlternatives ∧
      (t = [] ∨ t = ['\n']) := by
  unfold tailMatches at h
  rw [Bool.or_eq_true] at h
  cases h with
  | inl h =>
    obtain ⟨w, k, hr, hw, hws, hk⟩ := decomp_of_tailMatchesCore h
    exact ⟨w, k, [], by simp [hr], hw, hws, hk, Or.inl rfl⟩
  | inr h =>
    cases hg : r.getLast? with
    | none => rw [hg] at h; cases h
    | some c =>
      rw [hg] at h
      simp only [Bool.and_eq_true, decide_eq_true_eq] at h
      obtain ⟨hc, hcore⟩ := h
      obtain ⟨w, k, hr, hw, hws, hk⟩ := decomp_of_tailMatchesCore hcore
      refine ⟨w, k, ['\n'], ?_, hw, hws, hk, Or.inr rfl⟩
      have hne : r ≠ [] := by
        rintro rfl
        simp at hg
      have hlast := List.getLast?_eq_getLast r hne
      rw [hlast] at hg
      injection hg with hg'
      calc r = r.dropLast ++ [r.getLast hne] :=
              (List.dropLast_append_getLast hne).symm
        _ = w ++ k ++ ['\n'] := by rw [hr, hg', hc]

theorem patMatches_of_validSplit {s : Str} {i : Nat}
    (h : validSplit s i = true) : PatMatches s := by
  unfold validSplit at h
  rw [Bool.and_eq_true] at h
  obtain ⟨hpre, htail⟩ := h
  obtain ⟨w, k, t, hdec, hw, hws, hk, ht⟩ := decomp_of_tailMatches htail
  refine ⟨s.take i, w, k, t, ?_, ?_, hw, hws, hk, ht⟩
  · conv_lhs => rw [← List.take_append_drop i s]
    rw [hdec]
    simp [List.append_assoc]
  · rw [List.all_eq_true] at hpre
    intro hmem
    have := hpre '\n' hmem
    simp at this

theorem validSplit_of_patMatches {s : Str} (h : PatMatches s) :
    ∃ i, i ≤ s.length ∧ validSplit s i = true := by
  obtain ⟨p, w, k, t, rfl, hp, hw, hws, hk, ht⟩ := h
  refine ⟨p.length, ?_, ?_⟩
  · simp [List.length_append]
  · have hv := validSplit_append hp hw hws hk ht
    have heq : p ++ (w ++ k ++ t) = p ++ w ++ k ++ t := by
      rw [List.append_assoc, List.append_assoc, List.append_assoc]
    rw [heq] at hv
    exact hv

theorem not_patMatches_of_findSplit_none {s : Str}
    (h : findSplit s s.length = none) : ¬ PatMatches s := by
  intro hp
  obtain ⟨i, hi, hv⟩ := validSplit_of_patMatches hp
  have := findSplit_none h i hi
  rw [this] at hv
  cases hv

theorem tailMatches_drop_kw (k : Str) (hk : k ∈ kwAlternatives) (m : Nat) :
    tailMatches (k.drop m) = false := by
  rcases le_or_lt k.length m with hle | hlt
  · rw [List.drop_eq_nil_iff.mpr hle]
    decide
  · simp only [kwAlternatives, List.mem_cons, List.not_mem_nil,
      or_false] at hk
    rcases hk with rfl | rfl | rfl
    · have hm : m < 4 := by simpa using hlt
      interval_cases m <;> decide
    · have hm : m < 3 := by simpa using hlt
      interval_cases m <;> decide
    · have hm : m < 4 := by simpa using hlt
      interval_cases m <;> decide

theorem get_platform_name_single_ws {p : Str} {w : Char} {k : Str}
    (hp : '\n' ∉ p) (hw : isPyWhitespace w = true) (hk : k ∈ kwAlternatives) :
    get_platform_name (p ++ w :: k) = p := by
  have hvalid : validSplit (p ++ w :: k) p.length = true := by
    have hv := @validSplit_append p [w] k [] hp (by simp)
      (by intro c hc; simp only [List.mem_singleton] at hc; rw [hc]; exact hw)
      hk (Or.inl rfl)
    simpa using hv
  have hmax : ∀ j, p.length < j → j ≤ (p ++ w :: k).length →
      validSplit (p ++ w :: k) j = false := by
    intro j hj1 hj2
    obtain ⟨m, rfl⟩ : ∃ m, j = p.length + (m + 1) :=
      ⟨j - p.length - 1, by omega⟩
    have hdrop : (p ++ w :: k).drop (p.length + (m + 1)) = k.drop m := by
      rw [List.drop_append, List.drop_succ_cons]
    unfold validSplit
    rw [hdrop, tailMatches_drop_kw k hk m]
    simp
  have hfind : findSplit (p ++ w :: k) (p ++ w :: k).length = some p.length :=
    findSplit_eq_some_of hvalid (by rw [List.length_append]; omega) hmax
  unfold get_platform_name
  rw [hfind]
  exact List.take_left p (w :: k)

theorem get_platform_name_no_match {s : Str} (h : ¬ PatMatches s) :
    get_platform_name s = s := by
  unfold get_platform_name
  cases hf : findSplit s s.length with
  | none => rfl
  | some i =>
    exact absurd (patMatches_of_validSplit (findSplit_some hf).1) h

/-- C3 counterexample: the alt text `"AWS  Icon"` (two spaces before the
keyword) is of the claimed form with name `"AWS"`, whitespace `"  "` and
trailing word `"Icon"`, yet `get_platform_name` returns `"AWS "` — the
greedy group 1 keeps the first space, so the result is not the name and it
ends in whitespace. -/
theorem c3_counterexample :
    "AWS  Icon".toList = "AWS".toList ++ "  ".toList ++ "Icon".toList ∧
      (∀ c ∈ "  ".toList, isPyWhitespace c = true) ∧
      "  ".toList ≠ [] ∧ "Icon".toList ∈ kwAlternatives ∧
      get_platform_name ("AWS  Icon".toList) = "AWS ".toList ∧
      "AWS ".toList ≠ "AWS".toList ∧
      ("AWS ".toList).getLast? = some ' ' ∧ isPyWhitespace ' ' = true := by
  decide

/-- C3 amended: on an alt text of the form `name`, one whitespace character,
then `Icon`, `Log` or `Logo` at the end (with no newline in `name`),
`get_platform_name` returns exactly `name` — which, because group 1 is
greedy, may itself end in whitespace when the input held several whitespace
characters before the keyword; on a string that nowhere decomposes into
prefix-without-newline, whitespace run, keyword, and optional final newline,
the input is returned unchanged. -/
theorem c3_amended :
    (∀ (p : Str) (w : Char) (k : Str), '\n' ∉ p → isPyWhitespace w = true →
      k ∈ kwAlternatives → get_platform_name (p ++ w :: k) = p) ∧
    (∀ s : Str, ¬ PatMatches s → get_platform_name s = s) :=
  ⟨fun _ _ _ hp hw hk => get_platform_name_single_ws hp hw hk,
   fun _ h => get_platform_name_no_match h⟩

theorem c3_amended_witness :
    get_platform_name ("AWS ".toList ++ ' ' :: "Icon".toList) =
        "AWS ".toList ∧
      get_platform_name ("Oracle".toList) = "Oracle".toList :=
  ⟨c3_amended.1 "AWS ".toList ' ' "Icon".toList (by decide) (by decide)
      (by decide),
   c3_amended.2 "Oracle".toList
     (not_patMatches_of_findSplit_none (by decide))⟩
